import Mathlib

/-!
Verification of the Yoco webhook verifier
(src/counterfit-website/src/lib/yoco.ts).

Shallow embedding of `verifyWebhookSignature` and `validateWebhookTimestamp`,
together with the Node.js library functions they call: the
crypto.createHmac(sha256)/digest(base64) pipeline, crypto.timingSafeEqual,
Buffer.from with base64 and utf8 encodings, String.split with one-character
separators, and parseInt.

Bytes are `Nat` values below 256; 32-bit words are `Nat` reduced mod 2^32 at
every operation; JS exceptions are modelled with `Except String`; the wall
clock Date.now() is an explicit `Int` parameter in milliseconds.
-/

set_option maxRecDepth 100000

namespace Yoco

/-! ## 32-bit word arithmetic (SHA-256 works on 32-bit words) -/

/-- Modulus for 32-bit word arithmetic, 2^32. -/
def w32 : Nat := 4294967296

/-- Rotation of a word right by n bits, wrapped to 32 bits. -/
def rotr (n x : Nat) : Nat := ((x >>> n) ||| (x <<< (32 - n))) % w32

/-- The SHA-256 small sigma 0 function. -/
def ssig0 (x : Nat) : Nat := (rotr 7 x) ^^^ (rotr 18 x) ^^^ (x >>> 3)

/-- The SHA-256 small sigma 1 function. -/
def ssig1 (x : Nat) : Nat := (rotr 17 x) ^^^ (rotr 19 x) ^^^ (x >>> 10)

/-- The SHA-256 big sigma 0 function. -/
def bsig0 (x : Nat) : Nat := (rotr 2 x) ^^^ (rotr 13 x) ^^^ (rotr 22 x)

/-- The SHA-256 big sigma 1 function. -/
def bsig1 (x : Nat) : Nat := (rotr 6 x) ^^^ (rotr 11 x) ^^^ (rotr 25 x)

/-- The SHA-256 choice function; complement is xor with 2^32 - 1. -/
def chf (x y z : Nat) : Nat := (x &&& y) ^^^ ((x ^^^ 4294967295) &&& z)

/-- The SHA-256 majority function. -/
def majf (x y z : Nat) : Nat := (x &&& y) ^^^ (x &&& z) ^^^ (y &&& z)

/-! ## SHA-256 (FIPS 180-4), on lists of byte values -/

/-- Table of the 64 round constants of SHA-256, written in decimal. -/
def K256 : List Nat :=
  [1116352408, 1899447441, 3049323471, 3921009573, 961987163,
   1508970993, 2453635748, 2870763221, 3624381080, 310598401,
   607225278, 1426881987, 1925078388, 2162078206, 2614888103,
   3248222580, 3835390401, 4022224774, 264347078, 604807628,
   770255983, 1249150122, 1555081692, 1996064986, 2554220882,
   2821834349, 2952996808, 3210313671, 3336571891, 3584528711,
   113926993, 338241895, 666307205, 773529912, 1294757372,
   1396182291, 1695183700, 1986661051, 2177026350, 2456956037,
   2730485921, 2820302411, 3259730800, 3345764771, 3516065817,
   3600352804, 4094571909, 275423344, 430227734, 506948616,
   659060556, 883997877, 958139571, 1322822218, 1537002063,
   1747873779, 1955562222, 2024104815, 2227730452, 2361852424,
   2428436474, 2756734187, 3204031479, 3329325298]

/-- Table of the eight initial hash words of SHA-256, written in decimal. -/
def H0 : List Nat :=
  [1779033703, 3144134277, 1013904242, 2773480762,
   1359893119, 2600822924, 528734635, 1541459225]

/-- Big-endian bytes of a 32-bit word. -/
def wordBytes (w : Nat) : List Nat :=
  [(w >>> 24) % 256, (w >>> 16) % 256, (w >>> 8) % 256, w % 256]

/-- Big-endian bytes of a 64-bit length field. -/
def wordBytes8 (n : Nat) : List Nat :=
  [(n >>> 56) % 256, (n >>> 48) % 256, (n >>> 40) % 256, (n >>> 32) % 256,
   (n >>> 24) % 256, (n >>> 16) % 256, (n >>> 8) % 256, n % 256]

/-- Padding for SHA-256: append 0x80, zeros to 56 mod 64, then the bit
length. -/
def padMessage (msg : List Nat) : List Nat :=
  msg ++ 0x80 :: List.replicate ((119 - msg.length % 64) % 64) 0 ++ wordBytes8 (8 * msg.length)

/-- Split a byte list into 64-byte blocks (fuel-driven structural recursion). -/
def toBlocksAux : Nat → List Nat → List (List Nat)
  | 0, _ => []
  | _, [] => []
  | fuel + 1, l => l.take 64 :: toBlocksAux fuel (l.drop 64)

/-- Group bytes four at a time into big-endian 32-bit words. -/
def toWords : List Nat → List Nat
  | a :: b :: c :: d :: rest => (((a * 256 + b) * 256 + c) * 256 + d) :: toWords rest
  | _ => []

/-- Extend the 16 message-schedule words by `n` more words. -/
def extendW : Nat → List Nat → List Nat
  | 0, ws => ws
  | n + 1, ws =>
    let L := ws.length
    let nw := (ws.getD (L - 16) 0 + ssig0 (ws.getD (L - 15) 0) +
               ws.getD (L - 7) 0 + ssig1 (ws.getD (L - 2) 0)) % w32
    extendW n (ws ++ [nw])

/-- One SHA-256 compression round on the eight working registers. -/
def roundStep (st : List Nat) (k w : Nat) : List Nat :=
  match st with
  | [a, b, c, d, e, f, g, h] =>
    let t1 := (h + bsig1 e + chf e f g + k + w) % w32
    let t2 := (bsig0 a + majf a b c) % w32
    [(t1 + t2) % w32, a, b, c, (d + t1) % w32, e, f, g]
  | other => other

/-- Fold the 64 compression rounds over a list pairing each round constant
with its schedule word. -/
def compress (st : List Nat) : List (Nat × Nat) → List Nat
  | [] => st
  | (k, w) :: rest => compress (roundStep st k w) rest

/-- Process one 64-byte block: schedule, compress, add the feed-forward. -/
def processBlock (h : List Nat) (block : List Nat) : List Nat :=
  let ws := extendW 48 (toWords block)
  let st := compress h (K256.zip ws)
  (h.zip st).map fun p => (p.1 + p.2) % w32

/-- Serialize the eight hash words as the 32-byte digest. -/
def bytesOfWords : List Nat → List Nat
  | [] => []
  | w :: ws => wordBytes w ++ bytesOfWords ws

/-- Digest of a byte list under SHA-256. -/
def sha256 (msg : List Nat) : List Nat :=
  bytesOfWords ((toBlocksAux (msg.length + 72) (padMessage msg)).foldl processBlock H0)

/-- Keyed digest HMAC-SHA256 (RFC 2104, 64-byte block size), as
crypto.createHmac with algorithm sha256 computes it. -/
def hmacSha256 (key msg : List Nat) : List Nat :=
  let key2 := if key.length > 64 then sha256 key else key
  let keyPadded := key2 ++ List.replicate (64 - key2.length) 0
  sha256 ((keyPadded.map (Nat.xor 0x5c)) ++ sha256 ((keyPadded.map (Nat.xor 0x36)) ++ msg))

/-! ## Base64 (Node Buffer encoding base64) -/

/-- The standard base64 alphabet, in value order. -/
def b64Alpha : List Char :=
  "ABCDEFGHIJKLMNOPQRSTUVWXYZabcdefghijklmnopqrstuvwxyz0123456789+/".data

/-- Character for a 6-bit value. -/
def b64Char (n : Nat) : Char := b64Alpha.getD n 'A'

/-- Base64 encoding of a byte list, with padding, as digest(base64)
produces it. -/
def base64Encode : List Nat → List Char
  | a :: b :: c :: rest =>
    b64Char (a / 4) :: b64Char ((a % 4) * 16 + b / 16) ::
    b64Char ((b % 16) * 4 + c / 64) :: b64Char (c % 64) :: base64Encode rest
  | [a, b] => [b64Char (a / 4), b64Char ((a % 4) * 16 + b / 16), b64Char ((b % 16) * 4), '=']
  | [a] => [b64Char (a / 4), b64Char ((a % 4) * 16), '=', '=']
  | [] => []

/-- Value of a base64 character (six bits); Node also accepts the URL-safe
alphabet. Padding and all other characters give `none`. -/
def b64Val (c : Char) : Option Nat :=
  if 'A' ≤ c ∧ c ≤ 'Z' then some (c.toNat - 65)
  else if 'a' ≤ c ∧ c ≤ 'z' then some (c.toNat - 71)
  else if '0' ≤ c ∧ c ≤ '9' then some (c.toNat + 4)
  else if c = '+' ∨ c = '-' then some 62
  else if c = '/' ∨ c = '_' then some 63
  else none

/-- Reassemble bytes from 6-bit values, four at a time; a trailing group of
three or two values yields two or one bytes, a single leftover value none. -/
def b64Quads : List Nat → List Nat
  | a :: b :: c :: d :: rest =>
    (a * 4 + b / 16) :: ((b % 16) * 16 + c / 4) :: ((c % 4) * 64 + d) :: b64Quads rest
  | [a, b, c] => [a * 4 + b / 16, (b % 16) * 16 + c / 4]
  | [a, b] => [a * 4 + b / 16]
  | _ => []

/-- Node Buffer.from with encoding base64: lenient decode that skips
characters outside the URL-safe-extended alphabet, padding included, then
groups by four. -/
def bufferFromBase64 (s : List Char) : List Nat :=
  b64Quads (s.filterMap b64Val)

/-! ## UTF-8 (Node Buffer.from on a string uses utf8) -/

/-- Bytes of one code point under UTF-8. -/
def utf8EncodeChar (n : Nat) : List Nat :=
  if n < 0x80 then [n]
  else if n < 0x800 then [0xC0 + n / 64, 0x80 + n % 64]
  else if n < 0x10000 then [0xE0 + n / 4096, 0x80 + n / 64 % 64, 0x80 + n % 64]
  else [0xF0 + n / 262144, 0x80 + n / 4096 % 64, 0x80 + n / 64 % 64, 0x80 + n % 64]

/-- Bytes of a code-point list under UTF-8. -/
def utf8Encode : List Nat → List Nat
  | [] => []
  | n :: rest => utf8EncodeChar n ++ utf8Encode rest

/-- Decoder for UTF-8 (proof device for injectivity of the encoder): the
first byte determines how many continuation bytes to consume. -/
def utf8Decode : List Nat → List Nat
  | [] => []
  | b :: rest =>
    if b < 0x80 then b :: utf8Decode rest
    else if b < 0xE0 then
      ((b - 0xC0) * 64 + (rest.headD 0 - 0x80)) :: utf8Decode (rest.drop 1)
    else if b < 0xF0 then
      ((b - 0xE0) * 4096 + (rest.headD 0 - 0x80) * 64 + ((rest.drop 1).headD 0 - 0x80)) ::
        utf8Decode (rest.drop 2)
    else
      ((b - 0xF0) * 262144 + (rest.headD 0 - 0x80) * 4096 + ((rest.drop 1).headD 0 - 0x80) * 64 +
        ((rest.drop 2).headD 0 - 0x80)) :: utf8Decode (rest.drop 3)
  termination_by l => l.length
  decreasing_by
    all_goals simp [List.length_drop]
    all_goals omega

/-- Code points of a character list. -/
def codePoints (l : List Char) : List Nat := l.map Char.toNat

/-- Node Buffer.from on a string: its UTF-8 bytes. -/
def utf8Bytes (s : String) : List Nat := utf8Encode (codePoints s.data)

/-! ## JS String.split with a one-character separator -/

/-- JS split on a character list: always at least one (possibly empty)
group; every separator occurrence starts a new group. -/
def splitCharList (sep : Char) : List Char → List (List Char)
  | [] => [[]]
  | c :: cs =>
    match splitCharList sep cs with
    | [] => [[]]
    | g :: gs => if c = sep then [] :: g :: gs else (c :: g) :: gs

/-- Longest separator-free leading run, the first group JS split yields. -/
def beforeChar (sep : Char) : List Char → List Char
  | [] => []
  | c :: cs => if c = sep then [] else c :: beforeChar sep cs

/-! ## JS parseInt with the radix argument omitted -/

/-- The whitespace characters parseInt skips before the number. -/
def jsWhitespace (c : Char) : Bool :=
  c = ' ' ∨ c = '\t' ∨ c = '\n' ∨ c = '\r' ∨ c = '\x0b' ∨ c = '\x0c'

/-- Hexadecimal digit value. -/
def hexVal (c : Char) : Option Nat :=
  if '0' ≤ c ∧ c ≤ '9' then some (c.toNat - 48)
  else if 'a' ≤ c ∧ c ≤ 'f' then some (c.toNat - 87)
  else if 'A' ≤ c ∧ c ≤ 'F' then some (c.toNat - 55)
  else none

/-- Decimal digit value. -/
def decVal (c : Char) : Option Nat :=
  if '0' ≤ c ∧ c ≤ '9' then some (c.toNat - 48) else none

/-- Accumulate leading digits of the given radix; `none` when there are
none at all. -/
def takeDigits (digitVal : Char → Option Nat) (radix : Nat) : List Char → Option Nat → Option Nat
  | [], acc => acc
  | c :: cs, acc =>
    match digitVal c with
    | some v => takeDigits digitVal radix cs (some ((acc.getD 0) * radix + v))
    | none => acc

/-- Sign handling of parseInt: a leading minus or plus is consumed; the
flag records a minus. -/
def parseIntSign : List Char → Bool × List Char
  | '-' :: rest => (true, rest)
  | '+' :: rest => (false, rest)
  | rest => (false, rest)

/-- Magnitude handling of parseInt with no radix: hexadecimal after a 0x or
0X marker, decimal otherwise, taking the longest digit run. -/
def parseIntMag : List Char → Option Nat
  | '0' :: 'x' :: rest => takeDigits hexVal 16 rest none
  | '0' :: 'X' :: rest => takeDigits hexVal 16 rest none
  | rest => takeDigits decVal 10 rest none

/-- JS parseInt with no radix: skip whitespace, read an optional sign, then
the magnitude; `none` stands for NaN. -/
def parseIntJS (s : String) : Option Int :=
  match parseIntMag (parseIntSign (s.data.dropWhile (fun c => jsWhitespace c))).2 with
  | none => none
  | some m =>
    some (if (parseIntSign (s.data.dropWhile (fun c => jsWhitespace c))).1 then -(m : Int)
          else (m : Int))

/-! ## The verifier (yoco.ts lines 267 to 327) -/

/-- The process-wide configuration slice the verifier reads:
YOCO_CONFIG.webhookSecret, the YOCO_WEBHOOK_SECRET environment variable,
empty when unset. -/
structure YocoConfig where
  webhookSecret : String

/-- Node crypto.timingSafeEqual on two utf8 Buffers: throws a RangeError on
byte-length mismatch, otherwise compares the byte lists. -/
def timingSafeEqual (a b : List Nat) : Except String Bool :=
  if a.length = b.length then Except.ok (decide (a = b)) else Except.error "RangeError"

/-- Line 283: Buffer.from of webhookSecret.split(underscore)[1] with
encoding base64; `none` models the TypeError thrown when index 1 is
undefined. -/
def hmacKeyBytes (secret : String) : Option (List Nat) :=
  ((splitCharList '_' secret.data)[1]?).map bufferFromBase64

/-- Lines 286 to 289: the expected signature, the base64 digest of the
HMAC-SHA256 of the signed content under the decoded key bytes. -/
def expectedSignature (secretBytes : List Nat) (signedContent : String) : List Char :=
  base64Encode (hmacSha256 secretBytes (utf8Bytes signedContent))

/-- Lines 293 to 294: webhookSignature.split(space)[0].split(comma)[1];
`none` models the undefined produced when the first entry has no comma. -/
def primarySignatureOf (webhookSignature : String) : Option (List Char) :=
  (splitCharList ',' ((splitCharList ' ' webhookSignature.data).headD []))[1]?

/-- Lines 273 to 303, the try block of verifyWebhookSignature; Except.error
marks the places where the JS code throws into the surrounding catch. -/
def verifyTry (cfg : YocoConfig) (webhookId webhookTimestamp requestBody webhookSignature : String) :
    Except String Bool :=
  if cfg.webhookSecret = "" then Except.ok false
  else
    let signedContent := webhookId ++ "." ++ webhookTimestamp ++ "." ++ requestBody
    match hmacKeyBytes cfg.webhookSecret with
    | none => Except.error "TypeError: first argument must not be undefined"
    | some secretBytes =>
      match primarySignatureOf webhookSignature with
      | none => Except.error "TypeError: first argument must not be undefined"
      | some primarySignature =>
        timingSafeEqual (utf8Encode (codePoints (expectedSignature secretBytes signedContent)))
          (utf8Encode (codePoints primarySignature))

/-- Lines 267 to 309, verifyWebhookSignature: the catch turns every thrown
error into false. -/
def verifyWebhookSignature (cfg : YocoConfig)
    (webhookId webhookTimestamp requestBody webhookSignature : String) : Bool :=
  match verifyTry cfg webhookId webhookTimestamp requestBody webhookSignature with
  | Except.ok b => b
  | Except.error _ => false

/-- Lines 312 to 327, validateWebhookTimestamp; `now` stands for Date.now()
in milliseconds. An unparsable timestamp makes webhookTime NaN, every
comparison with NaN is false, so the `none` branch yields false. -/
def validateWebhookTimestamp (now : Int) (timestamp : String) (thresholdMinutes : Int := 3) : Bool :=
  match parseIntJS timestamp with
  | none => false
  | some t =>
    let webhookTime := t * 1000
    let thresholdMs := thresholdMinutes * 60 * 1000
    ((now - webhookTime).natAbs : Int) ≤ thresholdMs

/-! ## Side definitions used to state the claims -/

/-- Plain base64 text: standard alphabet characters and padding. -/
def validB64 (s : String) : Prop := ∀ c ∈ s.data, c ∈ b64Alpha ∨ c = '='

instance : DecidablePred validB64 := fun s =>
  inferInstanceAs (Decidable (∀ c ∈ s.data, c ∈ b64Alpha ∨ c = '='))

/-- Value of a decimal digit run, the reading parseInt gives a digit
string. -/
def decimalVal (l : List Char) : Nat :=
  l.foldl (fun a c => a * 10 + (c.toNat - 48)) 0

/-! ## Lemmas about JS split -/

theorem splitCharList_cons_eq {sep c : Char} {cs : List Char} {g : List Char}
    {gs : List (List Char)} (h : splitCharList sep cs = g :: gs) :
    splitCharList sep (c :: cs) = if c = sep then [] :: g :: gs else (c :: g) :: gs := by
  show (match splitCharList sep cs with
        | [] => [[]]
        | g :: gs => if c = sep then [] :: g :: gs else (c :: g) :: gs) = _
  rw [h]

theorem splitCharList_ne_nil (sep : Char) (l : List Char) : splitCharList sep l ≠ [] := by
  cases l with
  | nil => simp [splitCharList]
  | cons c cs =>
    rcases h : splitCharList sep cs with _ | ⟨g, gs⟩
    · show (match splitCharList sep cs with
            | [] => [[]]
            | g :: gs => if c = sep then [] :: g :: gs else (c :: g) :: gs) ≠ []
      rw [h]
      simp
    · rw [splitCharList_cons_eq h]
      split <;> simp

theorem splitCharList_not_mem {sep : Char} {l : List Char} (h : sep ∉ l) :
    splitCharList sep l = [l] := by
  induction l with
  | nil => rfl
  | cons c cs ih =>
    have hc : c ≠ sep := fun hc => h (hc ▸ List.mem_cons_self c cs)
    have hcs : sep ∉ cs := fun hm => h (List.mem_cons_of_mem c hm)
    rw [splitCharList_cons_eq (ih hcs), if_neg hc]

theorem splitCharList_append {sep : Char} {a : List Char} (b : List Char) (h : sep ∉ a) :
    splitCharList sep (a ++ sep :: b) = a :: splitCharList sep b := by
  induction a with
  | nil =>
    rcases hb : splitCharList sep b with _ | ⟨g, gs⟩
    · exact absurd hb (splitCharList_ne_nil sep b)
    · show splitCharList sep (sep :: b) = [] :: g :: gs
      rw [splitCharList_cons_eq hb, if_pos rfl]
  | cons c a2 ih =>
    have hc : c ≠ sep := fun hc => h (hc ▸ List.mem_cons_self c a2)
    have ha2 : sep ∉ a2 := fun hm => h (List.mem_cons_of_mem c hm)
    show splitCharList sep (c :: (a2 ++ sep :: b)) = (c :: a2) :: splitCharList sep b
    rw [splitCharList_cons_eq (ih ha2), if_neg hc]

theorem splitCharList_headD (sep : Char) (l : List Char) :
    (splitCharList sep l).headD [] = beforeChar sep l := by
  induction l with
  | nil => rfl
  | cons c cs ih =>
    rcases h : splitCharList sep cs with _ | ⟨g, gs⟩
    · exact absurd h (splitCharList_ne_nil sep cs)
    · rw [h] at ih
      have hg : g = beforeChar sep cs := by simpa using ih
      rw [splitCharList_cons_eq h]
      by_cases hc : c = sep
      · simp [beforeChar, hc]
      · simp [beforeChar, hc, hg]

theorem splitCharList_getElem_zero (sep : Char) (l : List Char) :
    (splitCharList sep l)[0]? = some (beforeChar sep l) := by
  rcases h : splitCharList sep l with _ | ⟨g, gs⟩
  · exact absurd h (splitCharList_ne_nil sep l)
  · have := splitCharList_headD sep l
    rw [h] at this
    simpa using this

theorem mem_of_mem_splitCharList {sep : Char} :
    ∀ {l : List Char} {g : List Char}, g ∈ splitCharList sep l → ∀ {c : Char}, c ∈ g → c ∈ l := by
  intro l
  induction l with
  | nil =>
    intro g hg c hc
    simp [splitCharList] at hg
    subst hg
    exact absurd hc (List.not_mem_nil c)
  | cons d ds ih =>
    intro g hg c hc
    rcases h : splitCharList sep ds with _ | ⟨g0, gs⟩
    · exact absurd h (splitCharList_ne_nil sep ds)
    · rw [splitCharList_cons_eq h] at hg
      by_cases hd : d = sep
      · rw [if_pos hd] at hg
        rcases List.mem_cons.mp hg with hg | hg
        · subst hg; exact absurd hc (List.not_mem_nil c)
        · exact List.mem_cons_of_mem d (ih (h ▸ hg) hc)
      · rw [if_neg hd] at hg
        rcases List.mem_cons.mp hg with hg | hg
        · subst hg
          rcases List.mem_cons.mp hc with hc | hc
          · exact hc ▸ List.mem_cons_self d ds
          · exact List.mem_cons_of_mem d (ih (h ▸ List.mem_cons_self g0 gs) hc)
        · exact List.mem_cons_of_mem d (ih (h ▸ List.mem_cons_of_mem g0 hg) hc)

theorem beforeChar_cons (sep c : Char) (l : List Char) :
    beforeChar sep (c :: l) = if c = sep then [] else c :: beforeChar sep l := rfl

theorem beforeChar_append_all {sep : Char} {a : List Char} (b : List Char) (h : sep ∉ a) :
    beforeChar sep (a ++ b) = a ++ beforeChar sep b := by
  induction a with
  | nil => rfl
  | cons c a2 ih =>
    have hc : c ≠ sep := fun hc => h (hc ▸ List.mem_cons_self c a2)
    have ha2 : sep ∉ a2 := fun hm => h (List.mem_cons_of_mem c hm)
    simp [beforeChar, hc, ih ha2]

theorem beforeChar_mem {sep : Char} : ∀ {l : List Char} {c : Char}, c ∈ beforeChar sep l → c ∈ l := by
  intro l
  induction l with
  | nil => intro c hc; exact absurd hc (List.not_mem_nil c)
  | cons d ds ih =>
    intro c hc
    unfold beforeChar at hc
    by_cases hd : d = sep
    · rw [if_pos hd] at hc; exact absurd hc (List.not_mem_nil c)
    · rw [if_neg hd] at hc
      rcases List.mem_cons.mp hc with hc | hc
      · exact hc ▸ List.mem_cons_self d ds
      · exact List.mem_cons_of_mem d (ih hc)

/-! ## Lemmas about the base64 alphabet -/

theorem b64Char_mem (n : Nat) : b64Char n ∈ b64Alpha := by
  rcases Nat.lt_or_ge n 64 with h | h
  · have hall : ∀ m, m < 64 → b64Alpha.getD m 'A' ∈ b64Alpha := by decide
    exact hall n h
  · have hlen : b64Alpha.length = 64 := by decide
    unfold b64Char
    rw [List.getD_eq_default _ _ (by omega)]
    decide

theorem base64Encode_mem : ∀ (l : List Nat) (c : Char),
    c ∈ base64Encode l → c ∈ b64Alpha ∨ c = '=' := by
  intro l
  induction l using base64Encode.induct with
  | case1 a b c rest ih =>
    intro x hx
    unfold base64Encode at hx
    simp only [List.mem_cons] at hx
    rcases hx with hx | hx | hx | hx | hx
    · exact Or.inl (hx ▸ b64Char_mem _)
    · exact Or.inl (hx ▸ b64Char_mem _)
    · exact Or.inl (hx ▸ b64Char_mem _)
    · exact Or.inl (hx ▸ b64Char_mem _)
    · exact ih x hx
  | case2 a b =>
    intro x hx
    unfold base64Encode at hx
    simp only [List.mem_cons, List.not_mem_nil, or_false] at hx
    rcases hx with hx | hx | hx | hx
    · exact Or.inl (hx ▸ b64Char_mem _)
    · exact Or.inl (hx ▸ b64Char_mem _)
    · exact Or.inl (hx ▸ b64Char_mem _)
    · exact Or.inr hx
  | case3 a =>
    intro x hx
    unfold base64Encode at hx
    simp only [List.mem_cons, List.not_mem_nil, or_false] at hx
    rcases hx with hx | hx | hx | hx
    · exact Or.inl (hx ▸ b64Char_mem _)
    · exact Or.inl (hx ▸ b64Char_mem _)
    · exact Or.inr hx
    · exact Or.inr hx
  | case4 =>
    intro x hx
    simp [base64Encode] at hx

theorem base64Encode_no_comma {l : List Nat} : ',' ∉ base64Encode l := by
  intro h
  rcases base64Encode_mem l ',' h with h | h
  · exact absurd h (by decide)
  · exact absurd h (by decide)

theorem base64Encode_no_underscore {l : List Nat} : '_' ∉ base64Encode l := by
  intro h
  rcases base64Encode_mem l '_' h with h | h
  · exact absurd h (by decide)
  · exact absurd h (by decide)

/-! ## Injectivity of the UTF-8 encoding -/

theorem utf8Decode_encodeChar {n : Nat} (hn : n < 1114112) (rest : List Nat) :
    utf8Decode (utf8EncodeChar n ++ rest) = n :: utf8Decode rest := by
  unfold utf8EncodeChar
  split_ifs with h1 h2 h3
  · show utf8Decode (n :: rest) = n :: utf8Decode rest
    simp only [utf8Decode]
    rw [if_pos h1]
  · show utf8Decode ((0xC0 + n / 64) :: (0x80 + n % 64) :: rest) = n :: utf8Decode rest
    simp only [utf8Decode]
    rw [if_neg (by omega), if_pos (by omega)]
    simp only [List.headD_cons, List.drop_succ_cons, List.drop_zero]
    congr 1
    omega
  · show utf8Decode ((0xE0 + n / 4096) :: (0x80 + n / 64 % 64) :: (0x80 + n % 64) :: rest) =
      n :: utf8Decode rest
    simp only [utf8Decode]
    rw [if_neg (by omega), if_neg (by omega), if_pos (by omega)]
    simp only [List.headD_cons, List.drop_succ_cons, List.drop_zero]
    congr 1
    omega
  · show utf8Decode ((0xF0 + n / 262144) :: (0x80 + n / 4096 % 64) :: (0x80 + n / 64 % 64) ::
      (0x80 + n % 64) :: rest) = n :: utf8Decode rest
    simp only [utf8Decode]
    rw [if_neg (by omega), if_neg (by omega), if_neg (by omega)]
    simp only [List.headD_cons, List.drop_succ_cons, List.drop_zero]
    congr 1
    omega

theorem utf8Decode_encode : ∀ {l : List Nat}, (∀ n ∈ l, n < 1114112) →
    utf8Decode (utf8Encode l) = l := by
  intro l
  induction l with
  | nil => intro _; simp [utf8Encode, utf8Decode]
  | cons n rest ih =>
    intro h
    show utf8Decode (utf8EncodeChar n ++ utf8Encode rest) = n :: rest
    rw [utf8Decode_encodeChar (h n (List.mem_cons_self n rest)),
      ih fun m hm => h m (List.mem_cons_of_mem n hm)]

theorem utf8Encode_inj {a b : List Nat} (ha : ∀ n ∈ a, n < 1114112)
    (hb : ∀ n ∈ b, n < 1114112) (h : utf8Encode a = utf8Encode b) : a = b := by
  have h2 := congrArg utf8Decode h
  rwa [utf8Decode_encode ha, utf8Decode_encode hb] at h2

theorem char_toNat_lt (c : Char) : c.toNat < 1114112 := by
  rcases c.valid with h | h
  · show c.val.toNat < 1114112
    omega
  · show c.val.toNat < 1114112
    omega

theorem char_toNat_inj {a b : Char} (h : a.toNat = b.toNat) : a = b :=
  Char.ext (UInt32.ext h)

theorem codePoints_lt (l : List Char) : ∀ n ∈ codePoints l, n < 1114112 := by
  intro n hn
  rcases List.mem_map.mp hn with ⟨c, _, hc⟩
  exact hc ▸ char_toNat_lt c

theorem codePoints_inj {a b : List Char} (h : codePoints a = codePoints b) : a = b :=
  List.map_injective_iff.mpr (fun _ _ => char_toNat_inj) h

theorem utf8_codePoints_inj {a b : List Char}
    (h : utf8Encode (codePoints a) = utf8Encode (codePoints b)) : a = b :=
  codePoints_inj (utf8Encode_inj (codePoints_lt a) (codePoints_lt b) h)

/-! ## Helper lemmas about the verifier -/

theorem whsec_data (rem : String) :
    ("whsec_" ++ rem).data = ['w', 'h', 's', 'e', 'c'] ++ '_' :: rem.data := by
  rw [String.data_append, show "whsec_".data = ['w', 'h', 's', 'e', 'c', '_'] from by decide]
  rfl

theorem whsec_ne_empty (rem : String) : ("whsec_" ++ rem) ≠ "" := by
  intro h
  have h2 := congrArg String.data h
  rw [whsec_data, show ("" : String).data = [] from by decide] at h2
  simp at h2

theorem validB64_no_underscore {rem : String} (h : validB64 rem) : '_' ∉ rem.data := by
  intro hm
  rcases h '_' hm with h1 | h1
  · exact absurd h1 (by decide)
  · exact absurd h1 (by decide)

theorem hmacKeyBytes_whsec {rem : String} (h : '_' ∉ rem.data) :
    hmacKeyBytes ("whsec_" ++ rem) = some (bufferFromBase64 rem.data) := by
  unfold hmacKeyBytes
  rw [whsec_data, splitCharList_append _ (by decide), splitCharList_not_mem h]
  rfl

theorem primarySignatureOf_first {sig : String} {E : List Char} (hE : ',' ∉ E)
    (h : (splitCharList ' ' sig.data).headD [] = 'v' :: '1' :: ',' :: E) :
    primarySignatureOf sig = some E := by
  unfold primarySignatureOf
  rw [h, show ('v' :: '1' :: ',' :: E) = ['v', '1'] ++ ',' :: E from rfl,
    splitCharList_append E (by decide), splitCharList_not_mem hE]
  rfl

theorem verifyTry_eq_compare {cfg : YocoConfig} {webhookId webhookTimestamp requestBody sig rem : String}
    (hsec : cfg.webhookSecret = "whsec_" ++ rem) (hrem : '_' ∉ rem.data)
    {p : List Char} (hprim : primarySignatureOf sig = some p) :
    verifyTry cfg webhookId webhookTimestamp requestBody sig =
      timingSafeEqual
        (utf8Encode (codePoints (expectedSignature (bufferFromBase64 rem.data)
          (webhookId ++ "." ++ webhookTimestamp ++ "." ++ requestBody))))
        (utf8Encode (codePoints p)) := by
  unfold verifyTry
  rw [hsec, if_neg (whsec_ne_empty rem), hmacKeyBytes_whsec hrem, hprim]

theorem timingSafeEqual_self (a : List Nat) : timingSafeEqual a a = Except.ok true := by
  unfold timingSafeEqual
  rw [if_pos rfl, decide_eq_true rfl]

theorem timingSafeEqual_ne {a b : List Nat} (h : a ≠ b) :
    timingSafeEqual a b = Except.ok false ∨ timingSafeEqual a b = Except.error "RangeError" := by
  unfold timingSafeEqual
  by_cases hl : a.length = b.length
  · left
    rw [if_pos hl, decide_eq_false h]
  · right
    rw [if_neg hl]

theorem verify_true_of_primary_eq {cfg : YocoConfig}
    {webhookId webhookTimestamp requestBody sig rem : String}
    (hsec : cfg.webhookSecret = "whsec_" ++ rem) (hrem : validB64 rem)
    (hprim : primarySignatureOf sig = some (expectedSignature (bufferFromBase64 rem.data)
      (webhookId ++ "." ++ webhookTimestamp ++ "." ++ requestBody))) :
    verifyWebhookSignature cfg webhookId webhookTimestamp requestBody sig = true := by
  unfold verifyWebhookSignature
  rw [verifyTry_eq_compare hsec (validB64_no_underscore hrem) hprim, timingSafeEqual_self]

theorem verify_false_of_primary_ne {cfg : YocoConfig}
    {webhookId webhookTimestamp requestBody sig rem : String}
    (hsec : cfg.webhookSecret = "whsec_" ++ rem) (hrem : validB64 rem)
    {p : List Char} (hprim : primarySignatureOf sig = some p)
    (hne : p ≠ expectedSignature (bufferFromBase64 rem.data)
      (webhookId ++ "." ++ webhookTimestamp ++ "." ++ requestBody)) :
    verifyWebhookSignature cfg webhookId webhookTimestamp requestBody sig = false := by
  have hq : utf8Encode (codePoints (expectedSignature (bufferFromBase64 rem.data)
      (webhookId ++ "." ++ webhookTimestamp ++ "." ++ requestBody))) ≠
      utf8Encode (codePoints p) :=
    fun hcontra => hne (utf8_codePoints_inj hcontra).symm
  unfold verifyWebhookSignature
  rcases timingSafeEqual_ne hq with h | h <;>
    rw [verifyTry_eq_compare hsec (validB64_no_underscore hrem) hprim, h]

theorem verify_false_of_error {cfg : YocoConfig} {webhookId webhookTimestamp requestBody sig : String}
    {e : String} (h : verifyTry cfg webhookId webhookTimestamp requestBody sig = Except.error e) :
    verifyWebhookSignature cfg webhookId webhookTimestamp requestBody sig = false := by
  unfold verifyWebhookSignature
  rw [h]

theorem verify_false_of_empty_secret {cfg : YocoConfig} (h : cfg.webhookSecret = "")
    (webhookId webhookTimestamp requestBody sig : String) :
    verifyWebhookSignature cfg webhookId webhookTimestamp requestBody sig = false ∧
      verifyTry cfg webhookId webhookTimestamp requestBody sig = Except.ok false := by
  constructor
  · unfold verifyWebhookSignature verifyTry
    rw [if_pos h]
  · unfold verifyTry
    rw [if_pos h]

theorem verify_false_of_no_underscore {cfg : YocoConfig} (h : '_' ∉ cfg.webhookSecret.data)
    (webhookId webhookTimestamp requestBody sig : String) :
    verifyWebhookSignature cfg webhookId webhookTimestamp requestBody sig = false := by
  by_cases he : cfg.webhookSecret = ""
  · exact (verify_false_of_empty_secret he webhookId webhookTimestamp requestBody sig).1
  · have hk : hmacKeyBytes cfg.webhookSecret = none := by
      unfold hmacKeyBytes
      rw [splitCharList_not_mem h]
      rfl
    unfold verifyWebhookSignature verifyTry
    rw [if_neg he, hk]

theorem verify_false_of_primary_none {cfg : YocoConfig}
    {webhookId webhookTimestamp requestBody sig : String}
    (h : primarySignatureOf sig = none) :
    verifyWebhookSignature cfg webhookId webhookTimestamp requestBody sig = false := by
  by_cases he : cfg.webhookSecret = ""
  · exact (verify_false_of_empty_secret he webhookId webhookTimestamp requestBody sig).1
  · unfold verifyWebhookSignature verifyTry
    rw [if_neg he]
    cases hk : hmacKeyBytes cfg.webhookSecret with
    | none => rfl
    | some k => rw [h]

theorem primarySignatureOf_none_of_no_comma {sig : String} (h : ',' ∉ sig.data) :
    primarySignatureOf sig = none := by
  unfold primarySignatureOf
  have hh : ',' ∉ (splitCharList ' ' sig.data).headD [] := by
    intro hm
    rw [splitCharList_headD] at hm
    exact h (beforeChar_mem hm)
  rw [splitCharList_not_mem hh]
  rfl

theorem primarySignatureOf_leading_space (sig : String) :
    primarySignatureOf (" " ++ sig) = none := by
  unfold primarySignatureOf
  rw [String.data_append, show (" " : String).data = [' '] from by decide,
    show [' '] ++ sig.data = ' ' :: sig.data from rfl]
  rcases h : splitCharList ' ' sig.data with _ | ⟨g, gs⟩
  · exact absurd h (splitCharList_ne_nil _ _)
  · rw [splitCharList_cons_eq h, if_pos rfl]
    rfl

theorem validate_false_of_parse_none {now : Int} {s : String} {m : Int}
    (h : parseIntJS s = none) : validateWebhookTimestamp now s m = false := by
  unfold validateWebhookTimestamp
  rw [h]

theorem validate_iff {now : Int} {s : String} {m t : Int} (h : parseIntJS s = some t) :
    validateWebhookTimestamp now s m = true ↔ |now - t * 1000| ≤ m * 60 * 1000 := by
  unfold validateWebhookTimestamp
  rw [h]
  dsimp only
  rw [Int.abs_eq_natAbs]
  exact decide_eq_true_iff

/-! ## Lemmas about parseInt -/

theorem decVal_eq_some {c : Char} (h : '0' ≤ c ∧ c ≤ '9') : decVal c = some (c.toNat - 48) := by
  unfold decVal
  rw [if_pos h]

theorem decVal_eq_none {c : Char} (h : ¬('0' ≤ c ∧ c ≤ '9')) : decVal c = none := by
  unfold decVal
  rw [if_neg h]

theorem jsWhitespace_of_digit {c : Char} (h : '0' ≤ c ∧ c ≤ '9') : ¬(jsWhitespace c = true) := by
  unfold jsWhitespace
  intro hw
  rcases of_decide_eq_true hw with h1 | h1 | h1 | h1 | h1 | h1 <;>
    (subst h1; exact absurd h (by decide))

theorem takeDigits_append_stop {l rest : List Char} {acc : Option Nat}
    (hl : ∀ c ∈ l, (decVal c).isSome) (hr : ∀ c, rest.head? = some c → decVal c = none) :
    takeDigits decVal 10 (l ++ rest) acc = takeDigits decVal 10 l acc := by
  induction l generalizing acc with
  | nil =>
    show takeDigits decVal 10 rest acc = acc
    cases rest with
    | nil => rfl
    | cons c cs =>
      unfold takeDigits
      rw [hr c rfl]
  | cons c cs ih =>
    have hc := hl c (List.mem_cons_self c cs)
    rcases hv : decVal c with _ | v
    · rw [hv] at hc
      simp at hc
    · show takeDigits decVal 10 (c :: (cs ++ rest)) acc = takeDigits decVal 10 (c :: cs) acc
      unfold takeDigits
      rw [hv]
      exact ih (fun d hd => hl d (List.mem_cons_of_mem c hd))

theorem takeDigits_digits {l : List Char} (hl : ∀ c ∈ l, (decVal c).isSome) :
    ∀ (a : Nat), takeDigits decVal 10 l (some a) =
      some (l.foldl (fun x c => x * 10 + (c.toNat - 48)) a) := by
  induction l with
  | nil => intro a; rfl
  | cons c cs ih =>
    intro a
    have hc := hl c (List.mem_cons_self c cs)
    have hd : '0' ≤ c ∧ c ≤ '9' := by
      by_contra hcon
      rw [decVal_eq_none hcon] at hc
      simp at hc
    unfold takeDigits
    rw [decVal_eq_some hd]
    show takeDigits decVal 10 cs (some (a * 10 + (c.toNat - 48))) = _
    rw [ih (fun d hdm => hl d (List.mem_cons_of_mem c hdm))]
    rfl

theorem parseIntSign_default {d : Char} (l : List Char) (h1 : d ≠ '-') (h2 : d ≠ '+') :
    parseIntSign (d :: l) = (false, d :: l) := by
  unfold parseIntSign
  split
  · next heq =>
    rw [List.cons_eq_cons] at heq
    exact absurd heq.1 h1
  · next heq =>
    rw [List.cons_eq_cons] at heq
    exact absurd heq.1 h2
  · rfl

theorem parseIntMag_default {l : List Char}
    (h : ∀ r : List Char, l ≠ '0' :: 'x' :: r ∧ l ≠ '0' :: 'X' :: r) :
    parseIntMag l = takeDigits decVal 10 l none := by
  unfold parseIntMag
  split
  · next v => exact absurd rfl (h v).1
  · next v => exact absurd rfl (h v).2
  · rfl

theorem parseIntJS_digits_append {ds rest : List Char} (hne : ds ≠ [])
    (hds : ∀ c ∈ ds, '0' ≤ c ∧ c ≤ '9')
    (hrest : ∀ c, rest.head? = some c → ¬('0' ≤ c ∧ c ≤ '9') ∧ c ≠ 'x' ∧ c ≠ 'X') :
    parseIntJS (String.mk (ds ++ rest)) = some ((decimalVal ds : Int)) := by
  rcases ds with _ | ⟨d, ds2⟩
  · exact absurd rfl hne
  obtain ⟨hd0, hd9⟩ := hds d (List.mem_cons_self d ds2)
  have hsome : ∀ c ∈ d :: ds2, (decVal c).isSome := by
    intro c hc
    rw [decVal_eq_some (hds c hc)]
    rfl
  have hstop : ∀ c, rest.head? = some c → decVal c = none :=
    fun c hc => decVal_eq_none (hrest c hc).1
  have hdrop : (String.mk ((d :: ds2) ++ rest)).data.dropWhile (fun c => jsWhitespace c) =
      d :: (ds2 ++ rest) := by
    rw [show (String.mk ((d :: ds2) ++ rest)).data = d :: (ds2 ++ rest) from rfl,
      List.dropWhile_cons, if_neg (jsWhitespace_of_digit ⟨hd0, hd9⟩)]
  have hsign : parseIntSign (d :: (ds2 ++ rest)) = (false, d :: (ds2 ++ rest)) :=
    parseIntSign_default _ (fun he => absurd hd0 (he ▸ by decide))
      (fun he => absurd hd0 (he ▸ by decide))
  have hmagarg : ∀ r : List Char,
      d :: (ds2 ++ rest) ≠ '0' :: 'x' :: r ∧ d :: (ds2 ++ rest) ≠ '0' :: 'X' :: r := by
    intro r
    constructor
    · intro heq
      rw [List.cons_eq_cons] at heq
      obtain ⟨hd, htail⟩ := heq
      cases ds2 with
      | nil =>
        have hh : rest.head? = some 'x' := by
          rw [show ([] : List Char) ++ rest = rest from rfl] at htail
          rw [htail]
          rfl
        exact absurd rfl (hrest 'x' hh).2.1
      | cons e ds3 =>
        rw [show (e :: ds3) ++ rest = e :: (ds3 ++ rest) from rfl, List.cons_eq_cons] at htail
        have he := hds e (List.mem_cons_of_mem d (List.mem_cons_self e ds3))
        exact absurd he.2 (htail.1 ▸ by decide)
    · intro heq
      rw [List.cons_eq_cons] at heq
      obtain ⟨hd, htail⟩ := heq
      cases ds2 with
      | nil =>
        have hh : rest.head? = some 'X' := by
          rw [show ([] : List Char) ++ rest = rest from rfl] at htail
          rw [htail]
          rfl
        exact absurd rfl (hrest 'X' hh).2.2
      | cons e ds3 =>
        rw [show (e :: ds3) ++ rest = e :: (ds3 ++ rest) from rfl, List.cons_eq_cons] at htail
        have he := hds e (List.mem_cons_of_mem d (List.mem_cons_self e ds3))
        exact absurd he.2 (htail.1 ▸ by decide)
  have hmag : parseIntMag (parseIntSign ((String.mk ((d :: ds2) ++ rest)).data.dropWhile
      (fun c => jsWhitespace c))).2 = some (decimalVal (d :: ds2)) := by
    rw [hdrop, hsign]
    show parseIntMag (d :: (ds2 ++ rest)) = _
    rw [parseIntMag_default hmagarg,
      show d :: (ds2 ++ rest) = (d :: ds2) ++ rest from rfl,
      takeDigits_append_stop hsome hstop]
    show takeDigits decVal 10 (d :: ds2) none = _
    unfold takeDigits
    rw [decVal_eq_some ⟨hd0, hd9⟩]
    show takeDigits decVal 10 ds2 (some (0 * 10 + (d.toNat - 48))) = _
    rw [takeDigits_digits (fun c hc => hsome c (List.mem_cons_of_mem d hc))]
    rfl
  unfold parseIntJS
  rw [hmag, hdrop, hsign]
  rfl

/-! ## Primary-signature extraction from a concatenated header -/

theorem primarySignatureOf_concat (x s : String) (hsp : ' ' ∉ x.data) (hcm : ',' ∉ x.data) :
    primarySignatureOf (x ++ "," ++ s) = some (beforeChar ',' (beforeChar ' ' s.data)) := by
  unfold primarySignatureOf
  have hdata : (x ++ "," ++ s).data = x.data ++ ',' :: s.data := by
    rw [String.data_append, String.data_append,
      show ("," : String).data = [','] from by decide]
    simp
  rw [hdata, splitCharList_headD, beforeChar_append_all _ hsp, beforeChar_cons,
    if_neg (by decide : ¬(',' = ' ')), splitCharList_append _ hcm,
    List.getElem?_cons_succ, splitCharList_getElem_zero]

/-! ## The claims -/

/-- C1: for every webhookId, webhookTimestamp and rawRequestBody, if the
configured secret has the form whsec plus base64 text and the signature
header's first space-separated entry is v1 comma followed by the base64
HMAC-SHA256 of webhookId.webhookTimestamp.requestBody under the decoded
secret bytes, then verifyWebhookSignature returns true. -/
theorem verify_accepts_genuine_signature (cfg : YocoConfig)
    (webhookId webhookTimestamp requestBody webhookSignature rem : String)
    (hsec : cfg.webhookSecret = "whsec_" ++ rem) (hrem : validB64 rem)
    (hsig : (splitCharList ' ' webhookSignature.data).headD [] =
      'v' :: '1' :: ',' :: expectedSignature (bufferFromBase64 rem.data)
        (webhookId ++ "." ++ webhookTimestamp ++ "." ++ requestBody)) :
    verifyWebhookSignature cfg webhookId webhookTimestamp requestBody webhookSignature = true :=
  verify_true_of_primary_eq hsec hrem
    (primarySignatureOf_first base64Encode_no_comma hsig)

/-- Witness for C1 at the spec scenario: secret whsec_ZmFrZXNlY3JldGtleQ==,
id evt_1, timestamp 1700000000, the payment.succeeded JSON body, and the
header carrying the genuine HMAC value. -/
theorem verify_accepts_genuine_signature_witness :
    verifyWebhookSignature ⟨"whsec_ZmFrZXNlY3JldGtleQ=="⟩ "evt_1" "1700000000"
      "\x7b\"type\":\"payment.succeeded\"\x7d"
      "v1,VnEXwA/YbB3oDDdx74EGjzjNUIKuSFeTyFrnnCUeUHU=" = true :=
  verify_accepts_genuine_signature ⟨"whsec_ZmFrZXNlY3JldGtleQ=="⟩ "evt_1" "1700000000"
    "\x7b\"type\":\"payment.succeeded\"\x7d"
    "v1,VnEXwA/YbB3oDDdx74EGjzjNUIKuSFeTyFrnnCUeUHU=" "ZmFrZXNlY3JldGtleQ=="
    (by decide) (by decide) (by decide)

/-- C2: whenever the primary signature value extracted from the header (the
text after the comma of the first space-separated entry) differs from the
base64 HMAC-SHA256 of the signed content under the configured key,
verifyWebhookSignature returns false. -/
theorem verify_rejects_mismatched_signature (cfg : YocoConfig)
    (webhookId webhookTimestamp requestBody webhookSignature rem : String) (p : List Char)
    (hsec : cfg.webhookSecret = "whsec_" ++ rem) (hrem : validB64 rem)
    (hprim : primarySignatureOf webhookSignature = some p)
    (hne : p ≠ expectedSignature (bufferFromBase64 rem.data)
      (webhookId ++ "." ++ webhookTimestamp ++ "." ++ requestBody)) :
    verifyWebhookSignature cfg webhookId webhookTimestamp requestBody webhookSignature = false :=
  verify_false_of_primary_ne hsec hrem hprim hne

/-- Witness for C2: the spec scenario with one character appended to an
otherwise correct signature verifies false. -/
theorem verify_rejects_mismatched_signature_witness :
    verifyWebhookSignature ⟨"whsec_ZmFrZXNlY3JldGtleQ=="⟩ "evt_1" "1700000000"
      "\x7b\"type\":\"payment.succeeded\"\x7d"
      "v1,VnEXwA/YbB3oDDdx74EGjzjNUIKuSFeTyFrnnCUeUHU=x" = false :=
  verify_rejects_mismatched_signature ⟨"whsec_ZmFrZXNlY3JldGtleQ=="⟩ "evt_1" "1700000000"
    "\x7b\"type\":\"payment.succeeded\"\x7d"
    "v1,VnEXwA/YbB3oDDdx74EGjzjNUIKuSFeTyFrnnCUeUHU=x" "ZmFrZXNlY3JldGtleQ=="
    "VnEXwA/YbB3oDDdx74EGjzjNUIKuSFeTyFrnnCUeUHU=x".data
    (by decide) (by decide) (by decide) (by decide)

/-- C3: neither public operation ever escapes with an exception; each listed
failure mode (unparsable timestamp, empty header, header with no comma,
leading whitespace in the header, secret without an underscore so its decode
throws, byte-length mismatch in the comparison, and any thrown error in the
try block) is normalized to the return value false. -/
theorem verifier_failures_normalize_to_false :
    (∀ (now : Int) (s : String) (m : Int), parseIntJS s = none →
      validateWebhookTimestamp now s m = false) ∧
    (∀ (cfg : YocoConfig) (webhookId webhookTimestamp requestBody : String),
      verifyWebhookSignature cfg webhookId webhookTimestamp requestBody "" = false) ∧
    (∀ (cfg : YocoConfig) (webhookId webhookTimestamp requestBody sig : String),
      ',' ∉ sig.data →
      verifyWebhookSignature cfg webhookId webhookTimestamp requestBody sig = false) ∧
    (∀ (cfg : YocoConfig) (webhookId webhookTimestamp requestBody sig : String),
      verifyWebhookSignature cfg webhookId webhookTimestamp requestBody (" " ++ sig) = false) ∧
    (∀ (cfg : YocoConfig) (webhookId webhookTimestamp requestBody sig : String),
      '_' ∉ cfg.webhookSecret.data →
      verifyWebhookSignature cfg webhookId webhookTimestamp requestBody sig = false) ∧
    (∀ (a b : List Nat), a.length ≠ b.length → timingSafeEqual a b = Except.error "RangeError") ∧
    (∀ (cfg : YocoConfig) (webhookId webhookTimestamp requestBody sig e : String),
      verifyTry cfg webhookId webhookTimestamp requestBody sig = Except.error e →
      verifyWebhookSignature cfg webhookId webhookTimestamp requestBody sig = false) := by
  refine ⟨fun _ _ _ h => validate_false_of_parse_none h,
    fun cfg a b c => verify_false_of_primary_none (by decide),
    fun cfg a b c sig h => verify_false_of_primary_none (primarySignatureOf_none_of_no_comma h),
    fun cfg a b c sig => verify_false_of_primary_none (primarySignatureOf_leading_space sig),
    fun cfg a b c sig h => verify_false_of_no_underscore h a b c sig,
    fun a b h => ?_,
    fun cfg a b c sig e h => verify_false_of_error h⟩
  unfold timingSafeEqual
  rw [if_neg h]

/-- Witness for C3: concrete instances of each failure mode. -/
theorem verifier_failures_normalize_to_false_witness :
    validateWebhookTimestamp 0 "abc" 3 = false ∧
    verifyWebhookSignature ⟨"whsec_QQ=="⟩ "a" "b" "c" "" = false ∧
    verifyWebhookSignature ⟨"whsec_QQ=="⟩ "a" "b" "c" "v1x" = false ∧
    verifyWebhookSignature ⟨"whsec_QQ=="⟩ "a" "b" "c" (" " ++ "v1,x") = false ∧
    verifyWebhookSignature ⟨"nounderscore"⟩ "a" "b" "c" "v1,x" = false ∧
    timingSafeEqual [1] [] = Except.error "RangeError" ∧
    verifyWebhookSignature ⟨"x"⟩ "a" "b" "c" "d" = false :=
  ⟨verifier_failures_normalize_to_false.1 0 "abc" 3 (by decide),
   verifier_failures_normalize_to_false.2.1 ⟨"whsec_QQ=="⟩ "a" "b" "c",
   verifier_failures_normalize_to_false.2.2.1 ⟨"whsec_QQ=="⟩ "a" "b" "c" "v1x" (by decide),
   verifier_failures_normalize_to_false.2.2.2.1 ⟨"whsec_QQ=="⟩ "a" "b" "c" "v1,x",
   verifier_failures_normalize_to_false.2.2.2.2.1 ⟨"nounderscore"⟩ "a" "b" "c" "v1,x" (by decide),
   verifier_failures_normalize_to_false.2.2.2.2.2.1 [1] [] (by decide),
   verifier_failures_normalize_to_false.2.2.2.2.2.2 ⟨"x"⟩ "a" "b" "c" "d"
     "TypeError: first argument must not be undefined" (by rfl)⟩

/-- C4: for a timestamp string parsing to t seconds and threshold m minutes,
validateWebhookTimestamp is true exactly when the absolute difference of now
and t in milliseconds is at most m times 60000, the boundary inclusive: 180
seconds before now with the default threshold is accepted, 181 seconds is
rejected, and the future side is rejected symmetrically. -/
theorem validateTimestamp_window_iff (now : Int) (ts : String) (m t : Int)
    (h : parseIntJS ts = some t) :
    (validateWebhookTimestamp now ts m = true ↔ |now - t * 1000| ≤ m * 60 * 1000) ∧
    (now - t * 1000 = 180000 → validateWebhookTimestamp now ts = true) ∧
    (now - t * 1000 = 181000 → validateWebhookTimestamp now ts = false) ∧
    (t * 1000 - now = 181000 → validateWebhookTimestamp now ts = false) := by
  refine ⟨validate_iff h, fun he => ?_, fun he => ?_, fun he => ?_⟩
  · exact (validate_iff h).mpr (by rw [he]; decide)
  · have h2 : ¬(validateWebhookTimestamp now ts 3 = true) := fun hv => by
      have h3 := (validate_iff h).mp hv
      rw [he] at h3
      exact absurd h3 (by decide)
    exact Bool.eq_false_iff.mpr h2
  · have hneg : now - t * 1000 = -181000 := by omega
    have h2 : ¬(validateWebhookTimestamp now ts 3 = true) := fun hv => by
      have h3 := (validate_iff h).mp hv
      rw [hneg] at h3
      exact absurd h3 (by decide)
    exact Bool.eq_false_iff.mpr h2

/-- Witness for C4 at the boundary: 180 seconds old is accepted, 181 seconds
old is rejected, 181 seconds in the future is rejected. -/
theorem validateTimestamp_window_iff_witness :
    validateWebhookTimestamp 1700000180000 "1700000000" = true ∧
    validateWebhookTimestamp 1700000181000 "1700000000" = false ∧
    validateWebhookTimestamp 1699999819000 "1700000000" = false :=
  ⟨(validateTimestamp_window_iff 1700000180000 "1700000000" 3 1700000000 (by decide)).2.1
      (by decide),
   (validateTimestamp_window_iff 1700000181000 "1700000000" 3 1700000000 (by decide)).2.2.1
      (by decide),
   (validateTimestamp_window_iff 1699999819000 "1700000000" 3 1700000000 (by decide)).2.2.2
      (by decide)⟩

/-- C5: with an unset or empty webhook secret, verifyWebhookSignature
short-circuits to false for every input, and the try block completes with
the plain value false rather than an exception or a comparison. -/
theorem verify_fails_closed_on_empty_secret (cfg : YocoConfig)
    (webhookId webhookTimestamp requestBody webhookSignature : String)
    (h : cfg.webhookSecret = "") :
    verifyWebhookSignature cfg webhookId webhookTimestamp requestBody webhookSignature = false ∧
      verifyTry cfg webhookId webhookTimestamp requestBody webhookSignature =
        Except.ok false :=
  verify_false_of_empty_secret h webhookId webhookTimestamp requestBody webhookSignature

/-- Witness for C5 with the empty secret. -/
theorem verify_fails_closed_on_empty_secret_witness :
    verifyWebhookSignature ⟨""⟩ "a" "b" "c" "v1,x" = false ∧
      verifyTry ⟨""⟩ "a" "b" "c" "v1,x" = Except.ok false :=
  verify_fails_closed_on_empty_secret ⟨""⟩ "a" "b" "c" "v1,x" (by decide)

/-- C6: for a secret of the form whsec followed by base64 text, the HMAC key
bytes are exactly the base64 decode of everything after the whsec marker;
and a secret without any underscore makes verification return false instead
of crashing. -/
theorem secret_key_decoding :
    (∀ (cfg : YocoConfig) (rem : String), cfg.webhookSecret = "whsec_" ++ rem → validB64 rem →
      hmacKeyBytes cfg.webhookSecret = some (bufferFromBase64 rem.data)) ∧
    (∀ (cfg : YocoConfig) (webhookId webhookTimestamp requestBody sig : String),
      '_' ∉ cfg.webhookSecret.data →
      verifyWebhookSignature cfg webhookId webhookTimestamp requestBody sig = false) :=
  ⟨fun cfg rem h1 h2 => by
      rw [h1]
      exact hmacKeyBytes_whsec (validB64_no_underscore h2),
   fun cfg a b c sig h => verify_false_of_no_underscore h a b c sig⟩

/-- Witness for C6: a concrete whsec secret decodes, and a secret with no
underscore verifies false. -/
theorem secret_key_decoding_witness :
    hmacKeyBytes (YocoConfig.mk "whsec_QQ==").webhookSecret =
      some (bufferFromBase64 "QQ==".data) ∧
    verifyWebhookSignature ⟨"plainsecret"⟩ "a" "b" "c" "v1,x" = false :=
  ⟨secret_key_decoding.1 ⟨"whsec_QQ=="⟩ "QQ==" (by decide) (by decide),
   secret_key_decoding.2 ⟨"plainsecret"⟩ "a" "b" "c" "v1,x" (by decide)⟩

/-- C7: only the first space-separated entry of the header is compared; when
some later entry carries the expected signature value but the first entry
does not, verification returns false. -/
theorem verify_checks_only_first_entry (cfg : YocoConfig)
    (webhookId webhookTimestamp requestBody webhookSignature rem : String)
    (hsec : cfg.webhookSecret = "whsec_" ++ rem) (hrem : validB64 rem)
    (_hlater : ∃ g ∈ (splitCharList ' ' webhookSignature.data).tail,
      (splitCharList ',' g)[1]? = some (expectedSignature (bufferFromBase64 rem.data)
        (webhookId ++ "." ++ webhookTimestamp ++ "." ++ requestBody)))
    (hfirst : primarySignatureOf webhookSignature ≠
      some (expectedSignature (bufferFromBase64 rem.data)
        (webhookId ++ "." ++ webhookTimestamp ++ "." ++ requestBody))) :
    verifyWebhookSignature cfg webhookId webhookTimestamp requestBody webhookSignature = false := by
  rcases h : primarySignatureOf webhookSignature with _ | p
  · exact verify_false_of_primary_none h
  · exact verify_false_of_primary_ne hsec hrem h (fun he => hfirst (he ▸ h))

/-- Witness for C7: a header whose second entry carries the genuine HMAC
value while the first entry carries a wrong one verifies false. -/
theorem verify_checks_only_first_entry_witness :
    verifyWebhookSignature ⟨"whsec_ZmFrZXNlY3JldGtleQ=="⟩ "evt_1" "1700000000"
      "\x7b\"type\":\"payment.succeeded\"\x7d"
      "v1,wrong v1,VnEXwA/YbB3oDDdx74EGjzjNUIKuSFeTyFrnnCUeUHU=" = false :=
  verify_checks_only_first_entry ⟨"whsec_ZmFrZXNlY3JldGtleQ=="⟩ "evt_1" "1700000000"
    "\x7b\"type\":\"payment.succeeded\"\x7d"
    "v1,wrong v1,VnEXwA/YbB3oDDdx74EGjzjNUIKuSFeTyFrnnCUeUHU=" "ZmFrZXNlY3JldGtleQ=="
    (by decide) (by decide) (by decide) (by decide)

/-- C9 counterexample: the claim that every timestamp string is read by its
leading decimal digits fails on hexadecimal forms. For now zero and the
string 0x10000000 the leading digit prefix is the single digit 0, whose
reading lies inside the freshness window, yet validateWebhookTimestamp
returns false because parseInt reads the string as hexadecimal 268435456. -/
theorem timestamp_hex_counterexample :
    "0x10000000".data.takeWhile Char.isDigit = ['0'] ∧
    ((0 : Int) - 0 * 1000).natAbs ≤ 3 * 60 * 1000 ∧
    validateWebhookTimestamp 0 "0x10000000" 3 = false :=
  ⟨by decide, by decide, by decide⟩

/-- C9 amended: validateWebhookTimestamp follows parseInt. A string of
decimal digits followed by junk that is neither a digit nor an x marker is
read by its leading digit run; a string parseInt cannot read at all is
rejected; and an accepted reading is compared against the freshness
window. -/
theorem timestamp_parseInt_semantics :
    (∀ (ds rest : List Char), ds ≠ [] → (∀ c ∈ ds, '0' ≤ c ∧ c ≤ '9') →
      (∀ c, rest.head? = some c → ¬('0' ≤ c ∧ c ≤ '9') ∧ c ≠ 'x' ∧ c ≠ 'X') →
      parseIntJS (String.mk (ds ++ rest)) = some ((decimalVal ds : Int))) ∧
    (∀ (now : Int) (s : String) (m : Int), parseIntJS s = none →
      validateWebhookTimestamp now s m = false) ∧
    (∀ (now : Int) (s : String) (m t : Int), parseIntJS s = some t →
      (validateWebhookTimestamp now s m = true ↔ |now - t * 1000| ≤ m * 60 * 1000)) :=
  ⟨fun _ _ h1 h2 h3 => parseIntJS_digits_append h1 h2 h3,
   fun _ _ _ h => validate_false_of_parse_none h,
   fun _ _ _ _ h => validate_iff h⟩

/-- Witness for the amended C9: 1700000000abc parses as 1700000000 and is
accepted near that time; an unreadable string is rejected. -/
theorem timestamp_parseInt_semantics_witness :
    parseIntJS (String.mk ("1700000000".data ++ "abc".data)) =
      some ((decimalVal "1700000000".data : Int)) ∧
    validateWebhookTimestamp 1700000000000 "xyz" 3 = false ∧
    validateWebhookTimestamp 1700000050000 "1700000000abc" 3 = true :=
  ⟨timestamp_parseInt_semantics.1 "1700000000".data "abc".data (by decide) (by decide)
      (by decide),
   timestamp_parseInt_semantics.2.1 1700000000000 "xyz" 3 (by decide),
   (timestamp_parseInt_semantics.2.2 1700000050000 "1700000000abc" 3 1700000000
      (by decide)).mpr (by decide)⟩

/-- C10: the version tag of the primary entry is never checked; for any tag
with no space and no comma, a header formed from that tag, a comma and the
remainder verifies exactly as the same header with tag v1 does. -/
theorem verify_ignores_version_tag (cfg : YocoConfig)
    (webhookId webhookTimestamp requestBody v s : String)
    (hsp : ' ' ∉ v.data) (hcm : ',' ∉ v.data) :
    verifyWebhookSignature cfg webhookId webhookTimestamp requestBody (v ++ "," ++ s) =
      verifyWebhookSignature cfg webhookId webhookTimestamp requestBody ("v1," ++ s) := by
  have h1 := primarySignatureOf_concat v s hsp hcm
  have h2 := primarySignatureOf_concat "v1" s (by decide) (by decide)
  have h3 : ("v1" : String) ++ "," ++ s = "v1," ++ s := by
    rw [show ("v1" : String) ++ "," = "v1," from by decide]
  rw [← h3] at *
  unfold verifyWebhookSignature verifyTry
  rw [h1, h2]

/-- Witness for C10: an arbitrary v999 tag verifies exactly as v1 on the
same remainder. -/
theorem verify_ignores_version_tag_witness :
    verifyWebhookSignature ⟨"whsec_QQ=="⟩ "a" "b" "c" ("v999" ++ "," ++ "sig") =
      verifyWebhookSignature ⟨"whsec_QQ=="⟩ "a" "b" "c" ("v1," ++ "sig") :=
  verify_ignores_version_tag ⟨"whsec_QQ=="⟩ "a" "b" "c" "v999" "sig" (by decide) (by decide)

end Yoco
